import Mathlib

/-!
# Verification of the vmemcache indexing layer (`src/vmemcache_index.c`)

A shallow embedding of the indexing layer of vmemcache: the comparator
`ravl_cmp` and the three operations `vmcache_index_insert`,
`vmcache_index_get`, `vmcache_index_remove`, translated from the C source.

The ordered-container primitive (`ravl_*`) and the entry-lifecycle
protocol (`vmemcache_entry_acquire` / `vmemcache_entry_release`) are
external collaborators whose code is not part of the indexing file; they
are modelled from the specification (sections 4.2 and 6).

Machine-level effects are made explicit:
* the entry heap is a partial map `EntryId → Option cache_entry`, so that
  mutation of an entry (refcount writes) through one name is visible
  through every alias;
* operations that dereference a dangling id or violate the refcount
  protocol return `none` (undefined behavior in C);
* the global serialization lock is a boolean field of the state, toggled
  exactly where the C code calls `util_mutex_lock` / `util_mutex_unlock`;
* `errno` writes are returned as an explicit component of the result.
-/

/-- A key: length field `ksize` plus the key bytes, as in `struct key`
(`ksize` + flexible array member `key[]`). -/
structure Key_t where
  ksize : Nat
  key : List Nat
deriving DecidableEq, Repr

/-- `struct value`: the reference count (unset until the index writes it)
and an opaque handle to the payload. -/
structure value_t where
  refcount : Option Nat
  vdata : Nat
deriving DecidableEq, Repr

/-- `struct cache_entry`: key plus value descriptor. -/
structure cache_entry where
  key : Key_t
  value : value_t
deriving DecidableEq, Repr

/-- `memcmp(a, b, n)` restricted to its sign, which is all the source
consumes: `-1`/`0`/`1` for the first byte difference within `n` bytes. -/
def memcmp : List Nat → List Nat → Nat → Int
  | _, _, 0 => 0
  | [], _, _ + 1 => 0
  | _ :: _, [], _ + 1 => 0
  | a :: as, b :: bs, n + 1 =>
    if a < b then -1 else if b < a then 1 else memcmp as bs n

/-- `ravl_cmp` (vmemcache_index.c, lines 46-59): compare two entries by
key length first, then by `memcmp` of the first `ksize` bytes. -/
def ravl_cmp (lce rce : cache_entry) : Int :=
  if lce.key.ksize < rce.key.ksize then -1
  else if rce.key.ksize < lce.key.ksize then 1
  else memcmp lce.key.key rce.key.key lce.key.ksize

/-- Identity of a heap-allocated `cache_entry` (its address). -/
abbrev EntryId := Nat

/-- The entry heap: which `cache_entry` object lives at each id. -/
abbrev Heap := EntryId → Option cache_entry

/-- Write the entry stored at id `i`. -/
def heapSet (h : Heap) (i : EntryId) (e : cache_entry) : Heap :=
  fun j => if j = i then some e else h j

/-- Free the entry stored at id `i`. -/
def heapRemove (h : Heap) (i : EntryId) : Heap :=
  fun j => if j = i then none else h j

/-- State of one index: the entry heap, the set of entry ids held by the
ordered container, and the global serialization lock `lock_ravl`. -/
structure IndexState where
  heap : Heap
  idx : List EntryId
  lockHeld : Bool

/-- Modelled from the spec: the OrderedContainer collaborator's
predicate-based find with the exact-equal predicate
(`ravl_find(container, probe, RAVL_PREDICATE_EQUAL)`): locate a node
whose record compares equal to the probe under the container's
comparator, or none. -/
def ravl_find (heap : Heap) (idx : List EntryId) (probe : cache_entry) : Option EntryId :=
  idx.find? (fun i =>
    match heap i with
    | some e => ravl_cmp e probe == 0
    | none => false)

/-- Modelled from the spec: the OrderedContainer collaborator's
`insert(container, record) -> success|failure`: fails (nonzero) on a
duplicate key or on node-allocation failure (`allocOk = false`), with no
mutation; on success links the record. Returns the C result code and the
new contents. -/
def ravl_insert (allocOk : Bool) (heap : Heap) (idx : List EntryId)
    (eid : EntryId) (e : cache_entry) : Int × List EntryId :=
  if !allocOk then (-1, idx)
  else if (ravl_find heap idx e).isSome then (-1, idx)
  else (0, eid :: idx)

/-- Modelled from the spec: EntryLifecycle `acquire(entry)` increments
`refcount`. `none` when the refcount was never initialized (garbage in C). -/
def vmemcache_entry_acquire (e : cache_entry) : Option cache_entry :=
  match e.value.refcount with
  | none => none
  | some n => some { e with value := { e.value with refcount := some (n + 1) } }

/-- Modelled from the spec: EntryLifecycle `release(cache, entry)`
decrements `refcount`; if the result is 0, finalizes the entry (frees its
backing memory). `none` on a dangling id or an uninitialized/zero
refcount (protocol violation). -/
def vmemcache_entry_release (heap : Heap) (eid : EntryId) : Option Heap :=
  match heap eid with
  | none => none
  | some e =>
    match e.value.refcount with
    | none => none
    | some 0 => none
    | some (n + 1) =>
      if n = 0 then some (heapRemove heap eid)
      else some (heapSet heap eid { e with value := { e.value with refcount := some n } })

/-- `entry->value.refcount = n`. -/
def set_refcount (e : cache_entry) (n : Nat) : cache_entry :=
  { e with value := { e.value with refcount := some n } }

/-- `vmcache_index_insert` (vmemcache_index.c, lines 84-101): lock;
`ravl_insert`; on failure unlock and return -1; on success write
`entry->value.refcount = 1`, unlock, return 0. `none` when `eid` is
dangling (the C code would dereference a wild pointer). -/
def vmcache_index_insert (ravlAllocOk : Bool) (s : IndexState) (eid : EntryId) :
    Option (Int × IndexState) :=
  match s.heap eid with
  | none => none
  | some entry =>
    let s1 : IndexState := { s with lockHeld := true }
    match ravl_insert ravlAllocOk s1.heap s1.idx eid entry with
    | (r, idx') =>
      if r = 0 then
        let entry' := set_refcount entry 1
        some (0, { heap := heapSet s1.heap eid entry', idx := idx', lockHeld := false })
      else
        some (-1, { s1 with idx := idx', lockHeld := false })

/-- The 1024-byte inline scratch threshold (`SIZE_1K`). -/
def SIZE_1K : Nat := 1024

/-- The probe record built by `vmcache_index_get`: `e->key.ksize = ksize;
memcpy(e->key.key, key, ksize)`. Its `value` field is never written
(stack/heap garbage); the comparator never reads it. -/
def probe_of (key : List Nat) (ksize : Nat) : cache_entry :=
  { key := { ksize := ksize, key := key.take ksize },
    value := { refcount := none, vdata := 0 } }

/-- `vmcache_index_get` (vmemcache_index.c, lines 106-153): `*entry =
NULL`; build the probe record, heap-allocated when `ksize > SIZE_1K`
(fails with -1 if `Malloc` fails, before the lock is taken), otherwise in
the caller-local scratch buffer; lock; `ravl_find` with the EQUAL
predicate; free the heap probe; when no node, unlock and return 0 with no
entry; otherwise deliver the node's entry, acquire it, unlock, return 0.
The result is the C return code, the delivered `*entry`, and the state.
`none` when the caller passes fewer than `ksize` key bytes (out-of-bounds
`memcpy`) or a found node holds a corrupt entry. -/
def vmcache_index_get (mallocOk : Bool) (s : IndexState) (key : List Nat) (ksize : Nat) :
    Option (Int × Option EntryId × IndexState) :=
  if key.length < ksize then none
  else if SIZE_1K < ksize && !mallocOk then some (-1, none, s)
  else
    let probe := probe_of key ksize
    let s1 : IndexState := { s with lockHeld := true }
    match ravl_find s1.heap s1.idx probe with
    | none => some (0, none, { s1 with lockHeld := false })
    | some nid =>
      match s1.heap nid with
      | none => none
      | some e =>
        match vmemcache_entry_acquire e with
        | none => none
        | some e' =>
          some (0, some nid, { s1 with heap := heapSet s1.heap nid e', lockHeld := false })

/-- `errno` value for an invalid argument. -/
def EINVAL : Nat := 22

/-- `vmcache_index_remove` (vmemcache_index.c, lines 158-180): lock;
`ravl_find(cache->index, entry, EQUAL)`; when no node, unlock, set
`errno = EINVAL`, return -1; otherwise `ravl_remove` the found node, then
`vmemcache_entry_release(cache, entry)` on the argument entry, unlock,
return 0. The result is the C return code, the `errno` written (if any),
and the state. -/
def vmcache_index_remove (s : IndexState) (eid : EntryId) :
    Option (Int × Option Nat × IndexState) :=
  match s.heap eid with
  | none => none
  | some entry =>
    let s1 : IndexState := { s with lockHeld := true }
    match ravl_find s1.heap s1.idx entry with
    | none => some (-1, some EINVAL, { s1 with lockHeld := false })
    | some nid =>
      let idx' := s1.idx.erase nid
      match vmemcache_entry_release s1.heap eid with
      | none => none
      | some heap' =>
        some (0, none, { heap := heap', idx := idx', lockHeld := false })

/-- Follows the spec's words, for comparison with `vmcache_index_get`:
"lookup(index, key, ksize) returns the entry equal to (key, ksize) if
present, with its reference count already incremented, or not found" —
one search semantics with no size threshold and no probe-construction
mechanism. -/
def index_get_spec (s : IndexState) (key : List Nat) (ksize : Nat) :
    Option (Int × Option EntryId × IndexState) :=
  if key.length < ksize then none
  else
    let probe := probe_of key ksize
    let s1 : IndexState := { s with lockHeld := true }
    match ravl_find s1.heap s1.idx probe with
    | none => some (0, none, { s1 with lockHeld := false })
    | some nid =>
      match s1.heap nid with
      | none => none
      | some e =>
        match vmemcache_entry_acquire e with
        | none => none
        | some e' =>
          some (0, some nid, { s1 with heap := heapSet s1.heap nid e', lockHeld := false })

/-- An entry is well-formed when its key array holds exactly `ksize`
bytes, as allocated by the cache engine. -/
def wf_entry (e : cache_entry) : Prop :=
  e.key.key.length = e.key.ksize

instance (e : cache_entry) : Decidable (wf_entry e) := by
  unfold wf_entry; infer_instance

/-! ## Lemmas about `memcmp` and `ravl_cmp` -/

theorem memcmp_self (l : List Nat) (n : Nat) : memcmp l l n = 0 := by
  induction l generalizing n with
  | nil => cases n <;> rfl
  | cons a as ih =>
    cases n with
    | zero => rfl
    | succ m => simp [memcmp, ih]

theorem memcmp_antisym (a b : List Nat) (n : Nat) : memcmp b a n = -memcmp a b n := by
  induction a generalizing b n with
  | nil => cases b <;> cases n <;> rfl
  | cons x xs ih =>
    cases b with
    | nil => cases n <;> rfl
    | cons y ys =>
      cases n with
      | zero => rfl
      | succ m =>
        by_cases hxy : x < y
        · have : ¬ y < x := Nat.lt_asymm hxy
          simp [memcmp, hxy, this]
        · by_cases hyx : y < x
          · simp [memcmp, hxy, hyx]
          · simp [memcmp, hxy, hyx, ih]

theorem memcmp_eq_zero_iff (a b : List Nat) (n : Nat)
    (ha : a.length = n) (hb : b.length = n) : memcmp a b n = 0 ↔ a = b := by
  induction n generalizing a b with
  | zero =>
    rw [List.length_eq_zero] at ha hb
    subst ha; subst hb; simp [memcmp]
  | succ m ih =>
    cases a with
    | nil => simp at ha
    | cons x xs =>
      cases b with
      | nil => simp at hb
      | cons y ys =>
        simp only [List.length_cons, Nat.succ_inj] at ha hb
        by_cases hxy : x < y
        · simp [memcmp, hxy, Nat.ne_of_lt hxy]
        · by_cases hyx : y < x
          · have : x ≠ y := (Nat.ne_of_lt hyx).symm
            simp [memcmp, hxy, hyx, this]
          · have hexy : x = y := Nat.le_antisymm (Nat.le_of_not_lt hyx) (Nat.le_of_not_lt hxy)
            simp [memcmp, hxy, hyx, hexy, ih xs ys ha hb]

theorem memcmp_trans (a b c : List Nat) (n : Nat)
    (hab : memcmp a b n = -1) (hbc : memcmp b c n = -1) : memcmp a c n = -1 := by
  induction n generalizing a b c with
  | zero => simp [memcmp] at hab
  | succ m ih =>
    cases a with
    | nil => simp [memcmp] at hab
    | cons x xs =>
      cases b with
      | nil => simp [memcmp] at hab
      | cons y ys =>
        cases c with
        | nil => simp [memcmp] at hbc
        | cons z zs =>
          by_cases hxy : x < y
          · by_cases hyz : y < z
            · simp [memcmp, Nat.lt_trans hxy hyz]
            · by_cases hzy : z < y
              · simp [memcmp, hyz, hzy] at hbc
              · have : y = z := Nat.le_antisymm (Nat.le_of_not_lt hzy) (Nat.le_of_not_lt hyz)
                subst this
                simp [memcmp, hxy]
          · by_cases hyx : y < x
            · simp [memcmp, hxy, hyx] at hab
            · have hexy : x = y := Nat.le_antisymm (Nat.le_of_not_lt hyx) (Nat.le_of_not_lt hxy)
              subst hexy
              simp only [memcmp, hxy, if_neg hxy, if_neg hyx] at hab
              by_cases hyz : x < z
              · simp [memcmp, hyz]
              · by_cases hzy : z < x
                · simp [memcmp, hyz, hzy] at hbc
                · simp only [memcmp, if_neg hyz, if_neg hzy] at hbc ⊢
                  exact ih xs ys zs hab hbc

theorem memcmp_values (a b : List Nat) (n : Nat) :
    memcmp a b n = -1 ∨ memcmp a b n = 0 ∨ memcmp a b n = 1 := by
  induction a generalizing b n with
  | nil => cases b <;> cases n <;> simp [memcmp]
  | cons x xs ih =>
    cases b with
    | nil => cases n <;> simp [memcmp]
    | cons y ys =>
      cases n with
      | zero => simp [memcmp]
      | succ m =>
        by_cases hxy : x < y
        · simp [memcmp, hxy]
        · by_cases hyx : y < x
          · simp [memcmp, hxy, hyx]
          · simpa [memcmp, hxy, hyx] using ih ys m

/-- `ravl_cmp` reads only the keys of its arguments. -/
theorem ravl_cmp_key_congr (a b b' : cache_entry) (h : b.key = b'.key) :
    ravl_cmp a b = ravl_cmp a b' := by
  unfold ravl_cmp; rw [h]

theorem ravl_cmp_key_congr_left (a a' b : cache_entry) (h : a.key = a'.key) :
    ravl_cmp a b = ravl_cmp a' b := by
  unfold ravl_cmp; rw [h]

theorem ravl_cmp_self_key (a b : cache_entry) (h : a.key = b.key) : ravl_cmp a b = 0 := by
  unfold ravl_cmp
  rw [h]
  simp [memcmp_self]

/-! ## C2: the comparator is a strict total order on keys -/

/-- Entry with key `"a"` (byte 97), length 1. -/
def entry_a : cache_entry :=
  { key := { ksize := 1, key := [97] }, value := { refcount := none, vdata := 0 } }

/-- Entry with key `"ab"` (bytes 97, 98), length 2. -/
def entry_ab : cache_entry :=
  { key := { ksize := 2, key := [97, 98] }, value := { refcount := none, vdata := 0 } }

/-- Entry with key `"ba"` (bytes 98, 97), length 2. -/
def entry_ba : cache_entry :=
  { key := { ksize := 2, key := [98, 97] }, value := { refcount := none, vdata := 0 } }

/-- C2: `ravl_cmp` is a strict total order on keys: an entry with the
shorter key orders first regardless of byte content; at equal lengths the
order is `memcmp`'s lexicographic byte comparison over the first `ksize`
bytes; the comparison is 0 exactly when length and bytes both match; it
is antisymmetric, transitive and trichotomous; and concretely `"a"`
orders before `"ab"` and `"ab"` before `"ba"`. -/
theorem ravl_cmp_strict_total_order (a b c : cache_entry)
    (ha : wf_entry a) (hb : wf_entry b) :
    (a.key.ksize < b.key.ksize → ravl_cmp a b = -1) ∧
    (a.key.ksize = b.key.ksize → ravl_cmp a b = memcmp a.key.key b.key.key a.key.ksize) ∧
    (ravl_cmp a b = 0 ↔ a.key = b.key) ∧
    (ravl_cmp b a = -ravl_cmp a b) ∧
    (ravl_cmp a b = -1 → ravl_cmp b c = -1 → ravl_cmp a c = -1) ∧
    (ravl_cmp a b = -1 ∨ ravl_cmp a b = 0 ∨ ravl_cmp a b = 1) ∧
    ravl_cmp entry_a entry_ab = -1 ∧ ravl_cmp entry_ab entry_ba = -1 := by
  refine ⟨?_, ?_, ?_, ?_, ?_, ?_, by decide, by decide⟩
  · intro h
    unfold ravl_cmp
    simp [h]
  · intro h
    unfold ravl_cmp
    simp [h, Nat.lt_irrefl]
  · constructor
    · intro h
      unfold ravl_cmp at h
      by_cases hlt : a.key.ksize < b.key.ksize
      · simp [hlt] at h
      · by_cases hgt : b.key.ksize < a.key.ksize
        · simp [hlt, hgt] at h
        · have hsz : a.key.ksize = b.key.ksize :=
            Nat.le_antisymm (Nat.le_of_not_lt hgt) (Nat.le_of_not_lt hlt)
          simp only [if_neg hlt, if_neg hgt] at h
          have hk : a.key.key = b.key.key :=
            (memcmp_eq_zero_iff a.key.key b.key.key a.key.ksize ha (hsz ▸ hb)).1 h
          cases hka : a.key with
          | mk ks kk =>
            cases hkb : b.key with
            | mk ks2 kk2 =>
              simp_all
    · intro h
      exact ravl_cmp_self_key a b h
  · unfold ravl_cmp
    by_cases hlt : a.key.ksize < b.key.ksize
    · simp [hlt, Nat.lt_asymm hlt]
    · by_cases hgt : b.key.ksize < a.key.ksize
      · simp [hlt, hgt]
      · have hsz : a.key.ksize = b.key.ksize :=
          Nat.le_antisymm (Nat.le_of_not_lt hgt) (Nat.le_of_not_lt hlt)
        rw [hsz]
        simp only [Nat.lt_irrefl, if_false]
        exact memcmp_antisym a.key.key b.key.key b.key.ksize
  · intro hab hbc
    unfold ravl_cmp at hab hbc ⊢
    by_cases hlt : a.key.ksize < b.key.ksize
    · by_cases hlt2 : b.key.ksize < c.key.ksize
      · simp [Nat.lt_trans hlt hlt2]
      · by_cases hgt2 : c.key.ksize < b.key.ksize
        · simp [hlt2, hgt2] at hbc
        · have hsz : b.key.ksize = c.key.ksize :=
            Nat.le_antisymm (Nat.le_of_not_lt hgt2) (Nat.le_of_not_lt hlt2)
          simp [hsz ▸ hlt]
    · by_cases hgt : b.key.ksize < a.key.ksize
      · simp [hlt, hgt] at hab
      · have hsz : a.key.ksize = b.key.ksize :=
          Nat.le_antisymm (Nat.le_of_not_lt hgt) (Nat.le_of_not_lt hlt)
        simp only [if_neg hlt, if_neg hgt] at hab
        by_cases hlt2 : b.key.ksize < c.key.ksize
        · simp [hsz ▸ hlt2]
        · by_cases hgt2 : c.key.ksize < b.key.ksize
          · simp [hlt2, hgt2] at hbc
          · have hsz2 : b.key.ksize = c.key.ksize :=
              Nat.le_antisymm (Nat.le_of_not_lt hgt2) (Nat.le_of_not_lt hlt2)
            simp only [if_neg hlt2, if_neg hgt2] at hbc
            have : ¬ a.key.ksize < c.key.ksize := by omega
            have h2 : ¬ c.key.ksize < a.key.ksize := by omega
            simp only [if_neg this, if_neg h2]
            exact memcmp_trans _ _ _ _ hab (by rw [hsz]; exact hbc)
  · unfold ravl_cmp
    by_cases hlt : a.key.ksize < b.key.ksize
    · simp [hlt]
    · by_cases hgt : b.key.ksize < a.key.ksize
      · simp [hlt, hgt]
      · simp only [if_neg hlt, if_neg hgt]
        exact memcmp_values a.key.key b.key.key a.key.ksize

/-- Witness for C2 at the concrete entries `"ab"`, `"ba"`, `"a"`. -/
theorem ravl_cmp_strict_total_order_witness :
    (entry_ab.key.ksize < entry_ba.key.ksize → ravl_cmp entry_ab entry_ba = -1) ∧
    (entry_ab.key.ksize = entry_ba.key.ksize →
      ravl_cmp entry_ab entry_ba = memcmp entry_ab.key.key entry_ba.key.key entry_ab.key.ksize) ∧
    (ravl_cmp entry_ab entry_ba = 0 ↔ entry_ab.key = entry_ba.key) ∧
    (ravl_cmp entry_ba entry_ab = -ravl_cmp entry_ab entry_ba) ∧
    (ravl_cmp entry_ab entry_ba = -1 → ravl_cmp entry_ba entry_a = -1 →
      ravl_cmp entry_ab entry_a = -1) ∧
    (ravl_cmp entry_ab entry_ba = -1 ∨ ravl_cmp entry_ab entry_ba = 0 ∨
      ravl_cmp entry_ab entry_ba = 1) ∧
    ravl_cmp entry_a entry_ab = -1 ∧ ravl_cmp entry_ab entry_ba = -1 :=
  ravl_cmp_strict_total_order entry_ab entry_ba entry_a (by decide) (by decide)

/-! ## C1: insert success/failure contract -/

/-- C1: on success `vmcache_index_insert` returns 0, links the entry and
sets its refcount to 1 (the refcount the linked entry carries when the
lock is dropped); on failure (node-allocation failure or duplicate key)
it returns -1, the heap is untouched (the refcount field is not written,
the entry is exactly as the caller built it) and the container is
unchanged (the entry is not linked). -/
theorem vmcache_index_insert_contract (allocOk : Bool) (s : IndexState) (eid : EntryId)
    (e : cache_entry) (h : s.heap eid = some e) :
    (allocOk = true → ravl_find s.heap s.idx e = none →
      vmcache_index_insert allocOk s eid =
        some (0, { heap := heapSet s.heap eid (set_refcount e 1),
                   idx := eid :: s.idx, lockHeld := false })) ∧
    (allocOk = false ∨ (ravl_find s.heap s.idx e).isSome = true →
      vmcache_index_insert allocOk s eid =
        some (-1, { heap := s.heap, idx := s.idx, lockHeld := false }) ∧
      ({ heap := s.heap, idx := s.idx, lockHeld := false } : IndexState).heap eid = some e) := by
  constructor
  · intro hao hfind
    subst hao
    simp [vmcache_index_insert, h, ravl_insert, hfind]
  · intro hfail
    refine ⟨?_, h⟩
    rcases hfail with hao | hdup
    · subst hao
      simp [vmcache_index_insert, h, ravl_insert]
    · cases allocOk with
      | false => simp [vmcache_index_insert, h, ravl_insert]
      | true => simp [vmcache_index_insert, h, ravl_insert, hdup]

/-- A one-entry heap: the entry `"ab"` lives at address 0. -/
def heap0 : Heap := fun j => if j = 0 then some entry_ab else none

/-- An empty index over `heap0`, lock free. -/
def st0 : IndexState := { heap := heap0, idx := [], lockHeld := false }

/-- Witness for C1: inserting entry 0 into the empty index `st0`. -/
theorem vmcache_index_insert_contract_witness :
    (true = true → ravl_find st0.heap st0.idx entry_ab = none →
      vmcache_index_insert true st0 0 =
        some (0, { heap := heapSet st0.heap 0 (set_refcount entry_ab 1),
                   idx := 0 :: st0.idx, lockHeld := false })) ∧
    (true = false ∨ (ravl_find st0.heap st0.idx entry_ab).isSome = true →
      vmcache_index_insert true st0 0 =
        some (-1, { heap := st0.heap, idx := st0.idx, lockHeld := false }) ∧
      ({ heap := st0.heap, idx := st0.idx, lockHeld := false } : IndexState).heap 0 =
        some entry_ab) :=
  vmcache_index_insert_contract true st0 0 entry_ab rfl

/-! ## C3: lookup distinguishes absence from failure -/

/-- C3: when the key is absent, `vmcache_index_get` returns 0 with no
entry delivered; when the heap probe allocation fails (only possible for
`ksize > SIZE_1K`) it returns -1; and -1 is returned on no other path. -/
theorem vmcache_index_get_absence_vs_failure (mallocOk : Bool) (s : IndexState)
    (key : List Nat) (ksize : Nat) (hk : ksize ≤ key.length) :
    (ravl_find s.heap s.idx (probe_of key ksize) = none →
      (SIZE_1K < ksize → mallocOk = true) →
      vmcache_index_get mallocOk s key ksize =
        some (0, none, { heap := s.heap, idx := s.idx, lockHeld := false })) ∧
    (SIZE_1K < ksize ∧ mallocOk = false →
      vmcache_index_get mallocOk s key ksize = some (-1, none, s)) ∧
    (∀ r oe s1, vmcache_index_get mallocOk s key ksize = some (r, oe, s1) →
      r = -1 → SIZE_1K < ksize ∧ mallocOk = false) := by
  have hnk : ¬ key.length < ksize := Nat.not_lt.mpr hk
  refine ⟨?_, ?_, ?_⟩
  · intro hfind hok
    by_cases hbig : SIZE_1K < ksize
    · have := hok hbig
      subst this
      simp [vmcache_index_get, hnk, hbig, hfind]
    · simp [vmcache_index_get, hnk, hbig, hfind]
  · rintro ⟨hbig, hmf⟩
    subst hmf
    simp [vmcache_index_get, hnk, hbig]
  · intro r oe s1 hres hr
    subst hr
    by_cases hbig : SIZE_1K < ksize
    · cases mallocOk with
      | false => exact ⟨hbig, rfl⟩
      | true =>
        exfalso
        cases hfind : ravl_find s.heap s.idx (probe_of key ksize) with
        | none => simp [vmcache_index_get, hnk, hbig, hfind] at hres
        | some nid =>
          cases hn : s.heap nid with
          | none => simp [vmcache_index_get, hnk, hbig, hfind, hn] at hres
          | some e =>
            cases hacq : vmemcache_entry_acquire e with
            | none => simp [vmcache_index_get, hnk, hbig, hfind, hn, hacq] at hres
            | some e' =>
              simp [vmcache_index_get, hnk, hbig, hfind, hn, hacq] at hres
    · exfalso
      cases hfind : ravl_find s.heap s.idx (probe_of key ksize) with
      | none => simp [vmcache_index_get, hnk, hbig, hfind] at hres
      | some nid =>
        cases hn : s.heap nid with
        | none => simp [vmcache_index_get, hnk, hbig, hfind, hn] at hres
        | some e =>
          cases hacq : vmemcache_entry_acquire e with
          | none => simp [vmcache_index_get, hnk, hbig, hfind, hn, hacq] at hres
          | some e' =>
            simp [vmcache_index_get, hnk, hbig, hfind, hn, hacq] at hres

/-- Witness for C3: looking up the absent key `"a"` in the empty index. -/
theorem vmcache_index_get_absence_vs_failure_witness :
    (ravl_find st0.heap st0.idx (probe_of [97] 1) = none →
      (SIZE_1K < 1 → true = true) →
      vmcache_index_get true st0 [97] 1 =
        some (0, none, { heap := st0.heap, idx := st0.idx, lockHeld := false })) ∧
    (SIZE_1K < 1 ∧ true = false →
      vmcache_index_get true st0 [97] 1 = some (-1, none, st0)) ∧
    (∀ r oe s1, vmcache_index_get true st0 [97] 1 = some (r, oe, s1) →
      r = -1 → SIZE_1K < 1 ∧ true = false) :=
  vmcache_index_get_absence_vs_failure true st0 [97] 1 (by decide)

/-! ## C4: remove of an absent key fails with EINVAL and no mutation -/

/-- C4: when no node in the container compares equal to the argument
entry's key, `vmcache_index_remove` returns -1, writes `errno = EINVAL`,
and leaves the container contents and the whole entry heap unchanged (no
node detached, no refcount touched). -/
theorem vmcache_index_remove_not_found (s : IndexState) (eid : EntryId) (e : cache_entry)
    (h : s.heap eid = some e) (habs : ravl_find s.heap s.idx e = none) :
    vmcache_index_remove s eid =
      some (-1, some EINVAL, { heap := s.heap, idx := s.idx, lockHeld := false }) := by
  simp [vmcache_index_remove, h, habs]

/-- Witness for C4: removing entry 0 (key `"ab"`) from the empty index. -/
theorem vmcache_index_remove_not_found_witness :
    vmcache_index_remove st0 0 =
      some (-1, some EINVAL, { heap := st0.heap, idx := st0.idx, lockHeld := false }) :=
  vmcache_index_remove_not_found st0 0 entry_ab rfl rfl

/-! ## C5: insert-then-lookup round trip -/

/-- The probe built from an entry's own key bytes and length carries that
exact key. -/
theorem probe_of_key (e : cache_entry) (hwf : wf_entry e) :
    (probe_of e.key.key e.key.ksize).key = e.key := by
  unfold wf_entry at hwf
  have h1 : e.key.key.take e.key.ksize = e.key.key := by
    rw [← hwf]
    exact List.take_length e.key.key
  unfold probe_of
  cases hk : e.key with
  | mk ks kk =>
    rw [hk] at h1
    simp_all

/-- C5: for a key not yet present, insert succeeds with 0 and a refcount
of 1, and an immediate lookup of the same key succeeds with 0, delivers
the very entry that was inserted, and leaves its refcount at 2 — one
increment, performed by the lookup. -/
theorem insert_then_get_roundtrip (s : IndexState) (eid : EntryId) (e : cache_entry)
    (h : s.heap eid = some e) (hwf : wf_entry e)
    (habs : ravl_find s.heap s.idx e = none) :
    vmcache_index_insert true s eid =
      some (0, { heap := heapSet s.heap eid (set_refcount e 1),
                 idx := eid :: s.idx, lockHeld := false }) ∧
    vmcache_index_get true
        { heap := heapSet s.heap eid (set_refcount e 1),
          idx := eid :: s.idx, lockHeld := false } e.key.key e.key.ksize =
      some (0, some eid,
        { heap := heapSet (heapSet s.heap eid (set_refcount e 1)) eid (set_refcount e 2),
          idx := eid :: s.idx, lockHeld := false }) ∧
    heapSet (heapSet s.heap eid (set_refcount e 1)) eid (set_refcount e 2) eid =
      some (set_refcount e 2) := by
  have hnk : ¬ e.key.key.length < e.key.ksize := by
    unfold wf_entry at hwf; omega
  have hcmp : ravl_cmp (set_refcount e 1) (probe_of e.key.key e.key.ksize) = 0 := by
    apply ravl_cmp_self_key
    exact (probe_of_key e hwf).symm
  have hfind : ravl_find (heapSet s.heap eid (set_refcount e 1)) (eid :: s.idx)
      (probe_of e.key.key e.key.ksize) = some eid := by
    unfold ravl_find
    apply List.find?_cons_of_pos
    simp [heapSet, hcmp]
  refine ⟨?_, ?_, ?_⟩
  · simp [vmcache_index_insert, h, ravl_insert, habs]
  · simp only [vmcache_index_get, if_neg hnk]
    rw [hfind]
    simp [heapSet, vmemcache_entry_acquire, set_refcount]
  · simp [heapSet]

/-- Witness for C5: the round trip for entry 0 (key `"ab"`) in `st0`. -/
theorem insert_then_get_roundtrip_witness :
    vmcache_index_insert true st0 0 =
      some (0, { heap := heapSet st0.heap 0 (set_refcount entry_ab 1),
                 idx := 0 :: st0.idx, lockHeld := false }) ∧
    vmcache_index_get true
        { heap := heapSet st0.heap 0 (set_refcount entry_ab 1),
          idx := 0 :: st0.idx, lockHeld := false } entry_ab.key.key entry_ab.key.ksize =
      some (0, some 0,
        { heap := heapSet (heapSet st0.heap 0 (set_refcount entry_ab 1)) 0
            (set_refcount entry_ab 2),
          idx := 0 :: st0.idx, lockHeld := false }) ∧
    heapSet (heapSet st0.heap 0 (set_refcount entry_ab 1)) 0 (set_refcount entry_ab 2) 0 =
      some (set_refcount entry_ab 2) :=
  insert_then_get_roundtrip st0 0 entry_ab rfl (by decide) rfl

/-! ## C6: remove-then-lookup -/

/-- `find?` returns the unique element satisfying the predicate when it
is in the list and every other element fails the predicate. -/
theorem list_find_eq_of_unique {α : Type} (p : α → Bool) (l : List α) (a : α)
    (ha : a ∈ l) (hp : p a = true) (ho : ∀ b ∈ l, b ≠ a → p b = false) :
    l.find? p = some a := by
  induction l with
  | nil => cases ha
  | cons x xs ih =>
    by_cases hxa : x = a
    · subst hxa
      exact List.find?_cons_of_pos _ hp
    · have hx : p x = false := ho x (List.mem_cons_self x xs) hxa
      rw [List.find?_cons_of_neg _ (by simp [hx])]
      have hmem : a ∈ xs := by
        rcases List.mem_cons.mp ha with hax | hmem
        · exact absurd hax.symm hxa
        · exact hmem
      exact ih hmem (fun b hb hba => ho b (List.mem_cons_of_mem _ hb) hba)

/-- C6: removing an entry that is in the index (and is the only one with
its key) succeeds with 0, detaches exactly that node, and a subsequent
lookup of the same key reports not-found; the release step decrements the
index's reference, so with other holders remaining (refcount > 1 before
the remove) the entry object itself survives with its refcount
decremented by one. -/
theorem remove_then_get_not_found (s : IndexState) (eid : EntryId) (e : cache_entry) (n : Nat)
    (h : s.heap eid = some e) (hwf : wf_entry e) (hrc : e.value.refcount = some (n + 1))
    (hmem : eid ∈ s.idx) (hnd : s.idx.Nodup)
    (huniq : ∀ i ∈ s.idx, i ≠ eid → ∀ ei, s.heap i = some ei → ravl_cmp ei e ≠ 0) :
    ∃ s1, vmcache_index_remove s eid = some (0, none, s1) ∧
      s1.idx = s.idx.erase eid ∧
      vmcache_index_get true s1 e.key.key e.key.ksize =
        some (0, none, { heap := s1.heap, idx := s1.idx, lockHeld := false }) ∧
      (0 < n → s1.heap eid = some (set_refcount e n)) := by
  have hnk : ¬ e.key.key.length < e.key.ksize := by
    unfold wf_entry at hwf; omega
  have hfind : ravl_find s.heap s.idx e = some eid := by
    unfold ravl_find
    apply list_find_eq_of_unique _ _ eid hmem
    · simp [h, ravl_cmp_self_key e e rfl]
    · intro b hb hbe
      cases hsb : s.heap b with
      | none => simp [hsb]
      | some eb => simp [hsb, huniq b hb hbe eb hsb]
  -- the heap after `vmemcache_entry_release` on the argument entry
  have hrel : ∃ heap', vmemcache_entry_release s.heap eid = some heap' ∧
      (∀ i, i ≠ eid → heap' i = s.heap i) ∧
      (0 < n → heap' eid = some (set_refcount e n)) := by
    cases n with
    | zero =>
      refine ⟨heapRemove s.heap eid, ?_, ?_, ?_⟩
      · simp [vmemcache_entry_release, h, hrc]
      · intro i hi; simp [heapRemove, hi]
      · intro hn; omega
    | succ m =>
      refine ⟨heapSet s.heap eid (set_refcount e (m + 1)), ?_, ?_, ?_⟩
      · simp [vmemcache_entry_release, h, hrc, set_refcount]
      · intro i hi; simp [heapSet, hi]
      · intro hn; simp [heapSet]
  obtain ⟨heap', hrel, hoff, hat⟩ := hrel
  have hgone : ravl_find heap' (s.idx.erase eid) (probe_of e.key.key e.key.ksize) = none := by
    unfold ravl_find
    rw [List.find?_eq_none]
    intro i hi
    have hine : i ≠ eid ∧ i ∈ s.idx := (List.Nodup.mem_erase_iff hnd).mp hi
    rw [hoff i hine.1]
    cases hsi : s.heap i with
    | none => simp
    | some ei =>
      have : ravl_cmp ei (probe_of e.key.key e.key.ksize) = ravl_cmp ei e :=
        ravl_cmp_key_congr ei _ e (probe_of_key e hwf)
      simp [this, huniq i hine.2 hine.1 ei hsi]
  refine ⟨{ heap := heap', idx := s.idx.erase eid, lockHeld := false }, ?_, rfl, ?_, hat⟩
  · simp [vmcache_index_remove, h, hfind, hrel]
  · simp only [vmcache_index_get, if_neg hnk]
    rw [hgone]
    simp

/-- A heap whose entry 0 (key `"ab"`, refcount 2) is the indexed one. -/
def heap1 : Heap := fun j => if j = 0 then some (set_refcount entry_ab 2) else none

/-- An index holding exactly entry 0 of `heap1`. -/
def st1 : IndexState := { heap := heap1, idx := [0], lockHeld := false }

/-- Witness for C6: removing entry 0 (key `"ab"`, refcount 2) from `st1`. -/
theorem remove_then_get_not_found_witness :
    ∃ s1, vmcache_index_remove st1 0 = some (0, none, s1) ∧
      s1.idx = st1.idx.erase 0 ∧
      vmcache_index_get true s1 (set_refcount entry_ab 2).key.key
          (set_refcount entry_ab 2).key.ksize =
        some (0, none, { heap := s1.heap, idx := s1.idx, lockHeld := false }) ∧
      (0 < 1 → s1.heap 0 = some (set_refcount (set_refcount entry_ab 2) 1)) :=
  remove_then_get_not_found st1 0 (set_refcount entry_ab 2) 1 rfl (by decide) rfl
    (by decide) (List.nodup_singleton 0)
    (fun i hi hne => absurd (List.mem_singleton.mp hi) hne)

/-! ## C7: duplicate rejection leaves the original entry intact -/

/-- Two probes with equal keys drive the search to the same result. -/
theorem ravl_find_key_congr (heap : Heap) (idx : List EntryId) (p1 p2 : cache_entry)
    (h : p1.key = p2.key) : ravl_find heap idx p1 = ravl_find heap idx p2 := by
  unfold ravl_find
  congr 1
  funext i
  cases hsi : heap i with
  | none => rfl
  | some ei => simp [ravl_cmp_key_congr ei p1 p2 h]

/-- C7: when some indexed entry `e` (at node `eid`) already carries a key
equal to `e2`'s, inserting `e2` fails with -1 — whatever the
node-allocation outcome — and leaves the heap and the container exactly
as they were; the original entry is still retrievable by a lookup of
that key, which delivers `eid` with `e`'s key and value handle intact and
its refcount moved from its pre-insert value `m` only by the lookup's own
increment. -/
theorem duplicate_insert_rejected (allocOk : Bool) (s : IndexState) (eid eid2 : EntryId)
    (e e2 : cache_entry) (m : Nat)
    (h : s.heap eid = some e) (h2 : s.heap eid2 = some e2)
    (hfind : ravl_find s.heap s.idx e2 = some eid)
    (hrc : e.value.refcount = some m) (hwf2 : wf_entry e2) :
    vmcache_index_insert allocOk s eid2 =
      some (-1, { heap := s.heap, idx := s.idx, lockHeld := false }) ∧
    vmcache_index_get true { heap := s.heap, idx := s.idx, lockHeld := false }
        e2.key.key e2.key.ksize =
      some (0, some eid,
        { heap := heapSet s.heap eid (set_refcount e (m + 1)),
          idx := s.idx, lockHeld := false }) ∧
    heapSet s.heap eid (set_refcount e (m + 1)) eid = some (set_refcount e (m + 1)) := by
  have hnk : ¬ e2.key.key.length < e2.key.ksize := by
    unfold wf_entry at hwf2; omega
  have hfindp : ravl_find s.heap s.idx (probe_of e2.key.key e2.key.ksize) = some eid := by
    rw [ravl_find_key_congr s.heap s.idx _ e2 (probe_of_key e2 hwf2)]
    exact hfind
  refine ⟨?_, ?_, ?_⟩
  · cases allocOk with
    | false => simp [vmcache_index_insert, h2, ravl_insert]
    | true => simp [vmcache_index_insert, h2, ravl_insert, hfind]
  · simp only [vmcache_index_get, if_neg hnk]
    rw [hfindp]
    simp [h, vmemcache_entry_acquire, hrc, heapSet, set_refcount]
  · simp [heapSet]

/-- A second, distinct entry object with the same key `"ab"` but another
value handle, living at address 1. -/
def entry_ab2 : cache_entry :=
  { key := { ksize := 2, key := [97, 98] }, value := { refcount := none, vdata := 9 } }

/-- `heap1` extended with the unindexed duplicate-key entry 1. -/
def heap2 : Heap :=
  fun j => if j = 0 then some (set_refcount entry_ab 2)
    else if j = 1 then some entry_ab2 else none

/-- An index holding entry 0 of `heap2`, with duplicate entry 1 around. -/
def st2 : IndexState := { heap := heap2, idx := [0], lockHeld := false }

/-- Witness for C7: inserting the duplicate-key entry 1 into `st2`. -/
theorem duplicate_insert_rejected_witness :
    vmcache_index_insert true st2 1 =
      some (-1, { heap := st2.heap, idx := st2.idx, lockHeld := false }) ∧
    vmcache_index_get true { heap := st2.heap, idx := st2.idx, lockHeld := false }
        entry_ab2.key.key entry_ab2.key.ksize =
      some (0, some 0,
        { heap := heapSet st2.heap 0 (set_refcount (set_refcount entry_ab 2) (2 + 1)),
          idx := st2.idx, lockHeld := false }) ∧
    heapSet st2.heap 0 (set_refcount (set_refcount entry_ab 2) (2 + 1)) 0 =
      some (set_refcount (set_refcount entry_ab 2) (2 + 1)) :=
  duplicate_insert_rejected true st2 0 1 (set_refcount entry_ab 2) entry_ab2 2
    rfl rfl rfl rfl (by decide)

/-! ## C8: probe-path equivalence across the inline threshold -/

/-- C8: whenever the heap probe allocation succeeds (which is only ever
needed for `ksize > SIZE_1K`), `vmcache_index_get` computes exactly the
spec's threshold-free lookup semantics `index_get_spec`, for every key
length — at or below the inline-scratch threshold and above it alike:
the threshold changes only how the probe is built, never the search
outcome, the delivered entry, or the refcount effect. -/
theorem vmcache_index_get_threshold_equiv (mallocOk : Bool) (s : IndexState)
    (key : List Nat) (ksize : Nat) (hok : SIZE_1K < ksize → mallocOk = true) :
    vmcache_index_get mallocOk s key ksize = index_get_spec s key ksize := by
  unfold vmcache_index_get index_get_spec
  by_cases hkl : key.length < ksize
  · simp [hkl]
  · by_cases hbig : SIZE_1K < ksize
    · have := hok hbig
      subst this
      simp [hkl]
    · simp [hkl, hbig]

/-- Witness for C8 on a 2000-byte key (above the threshold) in `st1`. -/
theorem vmcache_index_get_threshold_equiv_witness :
    vmcache_index_get true st1 (List.replicate 2000 7) 2000 =
      index_get_spec st1 (List.replicate 2000 7) 2000 :=
  vmcache_index_get_threshold_equiv true st1 (List.replicate 2000 7) 2000 (fun _ => rfl)

/-! ## C9: the lock is free again at every return -/

/-- C9: starting from a free lock, each of the three operations leaves
the lock free at every `return`, error paths included — a failed insert,
a probe-allocation failure (which returns before the lock is ever
taken), a not-found lookup and a not-found remove. -/
theorem lock_released_on_every_path :
    (∀ allocOk s eid r s1, s.lockHeld = false →
      vmcache_index_insert allocOk s eid = some (r, s1) → s1.lockHeld = false) ∧
    (∀ mallocOk s key ksize r oe s1, s.lockHeld = false →
      vmcache_index_get mallocOk s key ksize = some (r, oe, s1) → s1.lockHeld = false) ∧
    (∀ s eid r err s1, s.lockHeld = false →
      vmcache_index_remove s eid = some (r, err, s1) → s1.lockHeld = false) := by
  refine ⟨?_, ?_, ?_⟩
  · intro allocOk s eid r s1 hl hres
    cases hh : s.heap eid with
    | none => simp [vmcache_index_insert, hh] at hres
    | some entry =>
      simp only [vmcache_index_insert, hh] at hres
      rcases hri : ravl_insert allocOk s.heap s.idx eid entry with ⟨rr, idx'⟩
      rw [hri] at hres
      by_cases hr0 : rr = 0
      · rw [if_pos hr0] at hres
        simp only [Option.some.injEq, Prod.mk.injEq] at hres
        obtain ⟨-, hs⟩ := hres
        subst hs
        rfl
      · rw [if_neg hr0] at hres
        simp only [Option.some.injEq, Prod.mk.injEq] at hres
        obtain ⟨-, hs⟩ := hres
        subst hs
        rfl
  · intro mallocOk s key ksize r oe s1 hl hres
    by_cases hkl : key.length < ksize
    · simp [vmcache_index_get, hkl] at hres
    · by_cases hbig : (decide (SIZE_1K < ksize) && !mallocOk) = true
      · simp only [vmcache_index_get, if_neg hkl, if_pos hbig, Option.some.injEq,
          Prod.mk.injEq] at hres
        obtain ⟨-, -, hs⟩ := hres
        subst hs
        exact hl
      · simp only [vmcache_index_get, if_neg hkl, if_neg hbig] at hres
        cases hfind : ravl_find s.heap s.idx (probe_of key ksize) with
        | none =>
          rw [hfind] at hres
          simp only [Option.some.injEq, Prod.mk.injEq] at hres
          obtain ⟨-, -, hs⟩ := hres
          subst hs
          rfl
        | some nid =>
          rw [hfind] at hres
          dsimp only at hres
          cases hn : s.heap nid with
          | none => simp [hn] at hres
          | some e =>
            rw [hn] at hres
            dsimp only at hres
            cases hacq : vmemcache_entry_acquire e with
            | none => simp [hacq] at hres
            | some e' =>
              rw [hacq] at hres
              dsimp only at hres
              simp only [Option.some.injEq, Prod.mk.injEq] at hres
              obtain ⟨-, -, hs⟩ := hres
              subst hs
              rfl
  · intro s eid r err s1 hl hres
    cases hh : s.heap eid with
    | none => simp [vmcache_index_remove, hh] at hres
    | some entry =>
      simp only [vmcache_index_remove, hh] at hres
      cases hfind : ravl_find s.heap s.idx entry with
      | none =>
        rw [hfind] at hres
        simp only [Option.some.injEq, Prod.mk.injEq] at hres
        obtain ⟨-, -, hs⟩ := hres
        subst hs
        rfl
      | some nid =>
        rw [hfind] at hres
        dsimp only at hres
        cases hrel : vmemcache_entry_release s.heap eid with
        | none => simp [hrel] at hres
        | some heap' =>
          rw [hrel] at hres
          dsimp only at hres
          simp only [Option.some.injEq, Prod.mk.injEq] at hres
          obtain ⟨-, -, hs⟩ := hres
          subst hs
          rfl

/-- Witness for C9: one concrete return of each operation on `st0`. -/
theorem lock_released_on_every_path_witness :
    ({ heap := heapSet st0.heap 0 (set_refcount entry_ab 1),
       idx := [0], lockHeld := false } : IndexState).lockHeld = false ∧
    ({ heap := st0.heap, idx := st0.idx, lockHeld := false } : IndexState).lockHeld = false ∧
    ({ heap := st0.heap, idx := st0.idx, lockHeld := false } : IndexState).lockHeld = false :=
  ⟨lock_released_on_every_path.1 true st0 0 0 _ rfl rfl,
   lock_released_on_every_path.2.1 true st0 [97] 1 0 none _ rfl rfl,
   lock_released_on_every_path.2.2 st0 0 (-1) (some EINVAL) _ rfl rfl⟩

/-! ## C10: remove matches by key equality, releases the argument -/

/-- C10: when the node the search locates (`nid`) is a different object
from the argument entry (`eid`) but carries an equal key, remove
succeeds, detaches `nid` from the container, leaves `nid`'s entry object
untouched on the heap, and applies the release step to the argument
entry `eid`, whose refcount drops by one. -/
theorem remove_matches_key_releases_argument (s : IndexState) (eid nid : EntryId)
    (e en : cache_entry) (m : Nat)
    (h : s.heap eid = some e) (hn : s.heap nid = some en) (hne : nid ≠ eid)
    (hrc : e.value.refcount = some (m + 2))
    (hfind : ravl_find s.heap s.idx e = some nid) :
    vmcache_index_remove s eid =
      some (0, none, { heap := heapSet s.heap eid (set_refcount e (m + 1)),
                       idx := s.idx.erase nid, lockHeld := false }) ∧
    heapSet s.heap eid (set_refcount e (m + 1)) nid = some en ∧
    heapSet s.heap eid (set_refcount e (m + 1)) eid = some (set_refcount e (m + 1)) := by
  have hrel : vmemcache_entry_release s.heap eid =
      some (heapSet s.heap eid (set_refcount e (m + 1))) := by
    simp [vmemcache_entry_release, h, hrc, set_refcount]
  refine ⟨?_, ?_, ?_⟩
  · simp [vmcache_index_remove, h, hfind, hrel]
  · simp [heapSet, hne]
    exact hn
  · simp [heapSet]

/-- Heap for the C10 witness: the indexed object (address 0, key `"ab"`,
refcount 2) and a distinct equal-key argument object (address 1,
refcount 3). -/
def heap3 : Heap :=
  fun j => if j = 0 then some (set_refcount entry_ab 2)
    else if j = 1 then some (set_refcount entry_ab2 3) else none

/-- An index holding entry 0 of `heap3`. -/
def st3 : IndexState := { heap := heap3, idx := [0], lockHeld := false }

/-- Witness for C10: removing via argument entry 1 detaches node 0. -/
theorem remove_matches_key_releases_argument_witness :
    vmcache_index_remove st3 1 =
      some (0, none,
        { heap := heapSet st3.heap 1 (set_refcount (set_refcount entry_ab2 3) (1 + 1)),
          idx := st3.idx.erase 0, lockHeld := false }) ∧
    heapSet st3.heap 1 (set_refcount (set_refcount entry_ab2 3) (1 + 1)) 0 =
      some (set_refcount entry_ab 2) ∧
    heapSet st3.heap 1 (set_refcount (set_refcount entry_ab2 3) (1 + 1)) 1 =
      some (set_refcount (set_refcount entry_ab2 3) (1 + 1)) :=
  remove_matches_key_releases_argument st3 1 0 (set_refcount entry_ab2 3)
    (set_refcount entry_ab 2) 1 rfl rfl (by decide) rfl rfl
